import Mathlib

/-!
Verification of the podcast content pipeline (shallow embedding).

The TypeScript sources are embedded as executable Lean definitions:
JSON values become an inductive `Json`, JavaScript truthiness and
`typeof` checks become boolean functions on `Json`, the validators of
`index.ts` become pure functions producing the same error strings, the
discovery/skip logic of `label-speakers.ts` and the transcription stage
becomes recursion over directory listings, and the database persistence
step becomes explicit state passing over a `Db` record.
-/

/-- JSON values as produced by `JSON.parse`.  Numbers are modelled as
integers (every numeric literal appearing in the validated data is
integral; none of the embedded checks depends on fractional values). -/
inductive Json where
  | null
  | bool (b : Bool)
  | num (n : Int)
  | str (s : String)
  | arr (elems : List Json)
  | obj (fields : List (String × Json))

/-- JavaScript truthiness of a JSON value (`!v` is `true` exactly when
this is `false`): `null`, `false`, `0` and `""` are falsy; arrays and
objects are always truthy. -/
def jsTruthy : Json → Bool
  | .null => false
  | .bool b => b
  | .num n => n != 0
  | .str s => s != ""
  | .arr _ => true
  | .obj _ => true

/-- `typeof v === "object"`: true for objects, arrays and `null`. -/
def jsIsObjectType : Json → Bool
  | .null => true
  | .arr _ => true
  | .obj _ => true
  | _ => false

/-- `typeof v === "number"`. -/
def jsIsNumberType : Json → Bool
  | .num _ => true
  | _ => false

/-- `typeof v === "string"`. -/
def jsIsStringType : Json → Bool
  | .str _ => true
  | _ => false

/-- First-match association-list lookup (JavaScript object property
access for our object representation, whose key lists are duplicate
free after parsing). -/
def assocLookup {α : Type} (k : String) : List (String × α) → Option α
  | [] => none
  | (a, v) :: rest => if a = k then some v else assocLookup k rest

/-- `v[key]` property access: `undefined` (here `none`) on non-objects
and on absent keys. -/
def getField : Json → String → Option Json
  | .obj fields, k => assocLookup k fields
  | _, _ => none

/-- Rendering used where the source embeds `JSON.stringify(entry, null, 2)`
into an error message.  `JSON.stringify` is a host builtin; the exact
layout (indentation, spacing) is immaterial to every property proved
about the messages, so a plain rendering is used. -/
def jsonStringify : Json → String
  | .null => "null"
  | .bool true => "true"
  | .bool false => "false"
  | .num n => toString n
  | .str s => "\"" ++ s ++ "\""
  | .arr xs => "[" ++ String.intercalate "," (xs.attach.map fun x => jsonStringify x.1) ++ "]"
  | .obj fs => "\x7b" ++ String.intercalate ","
      (fs.attach.map fun p => "\"" ++ p.1.1 ++ "\":" ++ jsonStringify p.1.2) ++ "\x7d"
decreasing_by
  · have h := List.sizeOf_lt_of_mem x.2
    simp only [Json.arr.sizeOf_spec]
    try omega
  · have h := List.sizeOf_lt_of_mem p.2
    have h2 : sizeOf p.1.2 < sizeOf p.1 := by
      obtain ⟨a, b⟩ := p.1
      simp
      try omega
    simp only [Json.obj.sizeOf_spec]
    try omega

/-- Numeric value of a two-character digit string (what `Number` returns
on the second component of a matched `MM:SS` timestamp). -/
def twoDigitVal (a b : Char) : Nat := (a.toNat - 48) * 10 + (b.toNat - 48)

/-- The test of `/^\d+:\d{2}$/`: one or more digits, a colon, exactly two
digits.  Because `:` is not a digit the regex is deterministic and the
greedy reading below is exact. -/
def timestampRegexTest (s : String) : Bool :=
  let cs := s.data
  let ds := cs.takeWhile Char.isDigit
  match cs.dropWhile Char.isDigit with
  | ':' :: a :: b :: [] => !ds.isEmpty && a.isDigit && b.isDigit
  | _ => false

/-- The seconds component read by
`entry.timestampFrom.split(":").map(Number)` on a string that passed
`timestampRegexTest` (the only state in which the source evaluates it):
the two digits after the colon. -/
def timestampSeconds (s : String) : Nat :=
  match s.data.dropWhile Char.isDigit with
  | _ :: a :: b :: _ => twoDigitVal a b
  | _ => 0

/-- Whether a value is JSON `null`. -/
def jsIsNull : Json → Bool
  | .null => true
  | _ => false

/-!
`String(v)`: the JavaScript string coercion of a JSON value, as applied
by `RegExp.test` and template literals.  Arrays coerce to their elements
joined by commas (`Array.prototype.toString` is `join(",")`, under which
a `null` element contributes the empty string and nested arrays are
joined recursively), objects to `"[object Object]"`.
-/
mutual
def jsToString : Json → String
  | .null => "null"
  | .bool true => "true"
  | .bool false => "false"
  | .num n => toString n
  | .str s => s
  | .arr xs => String.intercalate "," (jsToStringElems xs)
  | .obj _ => "[object Object]"
termination_by v => sizeOf v

def jsToStringElems : List Json → List String
  | [] => []
  | v :: rest => (if jsIsNull v then "" else jsToString v) :: jsToStringElems rest
termination_by l => sizeOf l
end

/-- String coercion applied by `RegExp.test` / template literals to a
field value: `String(v)` for a present value, `"undefined"` for an
absent one.  The branches for atoms repeat `jsToString`'s equations
verbatim (see `jsRegexCoerce_eq_jsToString`) so that the common cases
reduce structurally. -/
def jsRegexCoerce : Option Json → String
  | some (.str s) => s
  | some .null => "null"
  | some (.bool true) => "true"
  | some (.bool false) => "false"
  | some (.num n) => toString n
  | some (.arr xs) => jsToString (.arr xs)
  | some (.obj _) => "[object Object]"
  | none => "undefined"

/-- Result shape `{ isValid, errors, data? }` shared by both validators
in `index.ts`. -/
structure ValidationResult (α : Type) where
  isValid : Bool
  errors : List String
  data : Option α

/-- `validateEpisodeData` from `index.ts`: the object check, the two
required-field checks (`id` truthy number, `title` truthy string) and
the four optional-field checks, accumulating every error message. -/
def validateEpisodeData (data : Json) : ValidationResult Json :=
  if !(jsTruthy data && jsIsObjectType data) then
    ⟨false, ["Data is not an object"], none⟩
  else
    let requiredErr := fun (field msg : String) (want : Json → Bool) =>
      match getField data field with
      | some v => if jsTruthy v && want v then ([] : List String) else [msg]
      | none => [msg]
    let optionalNumErr := fun (field msg : String) =>
      match getField data field with
      | some v => if jsTruthy v && !jsIsNumberType v then [msg] else ([] : List String)
      | none => ([] : List String)
    let errors :=
      requiredErr "id" "Missing or invalid id (must be a number)" jsIsNumberType
        ++ requiredErr "title" "Missing or invalid title (must be a string)" jsIsStringType
        ++ optionalNumErr "datePublished" "Invalid datePublished (must be a number)"
        ++ optionalNumErr "dateCrawled" "Invalid dateCrawled (must be a number)"
        ++ optionalNumErr "duration" "Invalid duration (must be a number)"
        ++ optionalNumErr "episode" "Invalid episode (must be a number)"
    ⟨errors.isEmpty, errors, if errors.isEmpty then some data else none⟩

/-- The error messages `validateTranscriptData` pushes for one timestamp
field of one entry: the format check against `/^\d+:\d{2}$/`, then the
seconds-below-60 check. -/
def timestampFieldErrors (index : Nat) (fieldName : String) (entry : Json) : List String :=
  let s := jsRegexCoerce (getField entry fieldName)
  if !timestampRegexTest s then
    ["Entry " ++ toString index ++ ": Invalid " ++ fieldName
      ++ " format (should be MM:SS)\nTimestamp: \"" ++ s
      ++ "\"\nFull entry: " ++ jsonStringify entry]
  else if 60 ≤ timestampSeconds s then
    ["Entry " ++ toString index ++ ": Invalid " ++ fieldName
      ++ " - seconds must be less than 60\nTimestamp: \"" ++ s
      ++ "\"\nFull entry: " ++ jsonStringify entry]
  else []

/-- The error messages `validateTranscriptData` pushes for one array
element: the object check (with early return), the four required string
fields, then both timestamp checks, in source order. -/
def entryErrors (index : Nat) (entry : Json) : List String :=
  if !(jsTruthy entry && jsIsObjectType entry) then
    ["Entry " ++ toString index ++ " is not an object"]
  else
    let fieldErr := fun (fieldName : String) =>
      match getField entry fieldName with
      | some v =>
          if jsTruthy v && jsIsStringType v then ([] : List String)
          else ["Entry " ++ toString index ++ ": Missing or invalid " ++ fieldName
                 ++ "\nFull entry: " ++ jsonStringify entry]
      | none => ["Entry " ++ toString index ++ ": Missing or invalid " ++ fieldName
                  ++ "\nFull entry: " ++ jsonStringify entry]
    fieldErr "speaker" ++ fieldErr "timestampFrom" ++ fieldErr "timestampTo"
      ++ fieldErr "content"
      ++ timestampFieldErrors index "timestampFrom" entry
      ++ timestampFieldErrors index "timestampTo" entry

/-- The `data.forEach((entry, index) => ...)` accumulation, indices
starting at `start`. -/
def transcriptErrorsFrom (start : Nat) : List Json → List String
  | [] => []
  | e :: rest => entryErrors start e ++ transcriptErrorsFrom (start + 1) rest

/-- `validateTranscriptData` from `index.ts`: array check, then
per-element error accumulation over every element.  This is the result
of the executions that return; `validateTranscriptDataTotal` below adds
the `TypeError` escape those executions can take instead. -/
def validateTranscriptData (data : Json) : ValidationResult (List Json) :=
  match data with
  | .arr entries =>
      let errors := transcriptErrorsFrom 0 entries
      ⟨errors.isEmpty, errors, if errors.isEmpty then some entries else none⟩
  | _ => ⟨false, ["Transcript data must be an array"], none⟩

/-- Whether the seconds check for one timestamp field raises: after a
passed format test the source calls `.split(":")` on the raw field
value, which throws a `TypeError` when that value is not a string.  The
test itself coerces, so this is reachable exactly when a non-string
value's `String()` coercion matches the pattern (only arrays can, e.g.
`["5:00"]` coerces to `"5:00"`); an absent field coerces to
`"undefined"`, fails the test, and never reaches the split. -/
def timestampFieldThrows (entry : Json) (fieldName : String) : Bool :=
  match getField entry fieldName with
  | some v => !jsIsStringType v && timestampRegexTest (jsRegexCoerce (some v))
  | none => false

/-- Whether the per-element checks raise for this entry: non-objects
take the early return before any timestamp check, otherwise either
timestamp field can throw at its split. -/
def entryThrows (entry : Json) : Bool :=
  (jsTruthy entry && jsIsObjectType entry)
    && (timestampFieldThrows entry "timestampFrom"
          || timestampFieldThrows entry "timestampTo")

/-- The full behavior of `validateTranscriptData`, exception escape
included: when any entry throws, the `forEach` aborts at the first such
entry, the partially built error array is discarded, and the exception
propagates to the caller — no report is returned (`.error ()`);
otherwise the returned report is the one `validateTranscriptData`
describes. -/
def validateTranscriptDataTotal (data : Json) :
    Except Unit (ValidationResult (List Json)) :=
  match data with
  | .arr entries =>
      if entries.any entryThrows then .error ()
      else .ok (validateTranscriptData (.arr entries))
  | other => .ok (validateTranscriptData other)

/-- One diarized speaker turn (`TranscriptSegment` in
`label-speakers.ts`). -/
structure TranscriptSegment where
  speaker : String
  timestampFrom : String
  timestampTo : String
  content : String
deriving DecidableEq

/-- A segment with the resolved `labeledSpeaker` added
(`LabeledTranscriptSegment`). -/
structure LabeledTranscriptSegment where
  speaker : String
  timestampFrom : String
  timestampTo : String
  content : String
  labeledSpeaker : String
deriving DecidableEq

/-- `[...new Set(transcript.map(s => s.speaker))]`.  `List.dedup` keeps a
different occurrence order than the `Set` (last instead of first
occurrence); every property proved is order independent. -/
def uniqueSpeakers (transcript : List TranscriptSegment) : List String :=
  (transcript.map (·.speaker)).dedup

/-- `m[k] = v` on the object representation: overwrite an existing key,
otherwise append the new property. -/
def objSet (m : List (String × String)) (k v : String) : List (String × String) :=
  if (assocLookup k m).isSome then m.map (fun p => if p.1 = k then (k, v) else p)
  else m ++ [(k, v)]

/-- The `uniqueSpeakers.forEach` loop of `identifySpeakers`: any speaker
whose entry is absent or falsy (the empty string) is overwritten with
"Unknown Speaker". -/
def ensureAllSpeakers (speakers : List String) (m : List (String × String)) :
    List (String × String) :=
  match speakers with
  | [] => m
  | s :: rest =>
      let m' :=
        match assocLookup s m with
        | none => objSet m s "Unknown Speaker"
        | some l => if l = "" then objSet m s "Unknown Speaker" else m
      ensureAllSpeakers rest m'

/-- `identifySpeakers` from `label-speakers.ts`.  The remote model call is
the external collaborator; its outcome is the `response` argument: `.ok m`
is a successfully parsed `SpeakerMapping` (a string-to-string object, per
the declared response schema), `.error` is any thrown failure (network
error, missing response text, or a JSON parse error), which the `catch`
turns into the all-"Unknown Speaker" fallback mapping. -/
def identifySpeakers (transcript : List TranscriptSegment)
    (response : Except Unit (List (String × String))) : List (String × String) :=
  match response with
  | .ok m => ensureAllSpeakers (uniqueSpeakers transcript) m
  | .error _ => (uniqueSpeakers transcript).map (fun s => (s, "Unknown Speaker"))

/-- One step of the labeled-transcript construction in `main`:
`{...segment, labeledSpeaker: speakerMapping[segment.speaker] || "Unknown Speaker"}`. -/
def labelSegment (speakerMapping : List (String × String))
    (segment : TranscriptSegment) : LabeledTranscriptSegment :=
  { speaker := segment.speaker
    timestampFrom := segment.timestampFrom
    timestampTo := segment.timestampTo
    content := segment.content
    labeledSpeaker :=
      match assocLookup segment.speaker speakerMapping with
      | some l => if l = "" then "Unknown Speaker" else l
      | none => "Unknown Speaker" }

/-- `transcript.map(segment => ({...segment, labeledSpeaker: ...}))`. -/
def labelTranscript (speakerMapping : List (String × String))
    (transcript : List TranscriptSegment) : List LabeledTranscriptSegment :=
  transcript.map (labelSegment speakerMapping)

/-- Forgetting the added field, for stating frame preservation. -/
def unlabelSegment (seg : LabeledTranscriptSegment) : TranscriptSegment :=
  ⟨seg.speaker, seg.timestampFrom, seg.timestampTo, seg.content⟩

/-- The observable state of one on-disk file for the artifact readers:
either bytes that `JSON.parse` accepts (carrying the parsed value) or
bytes on which it raises. -/
inductive FileContent where
  | parsed (v : Json)
  | malformed

/-- `path.join(directory, file)`. -/
def joinPath (a b : String) : String := a ++ "/" ++ b

/-- `loadEpisodeMetadata` from `label-speakers.ts` over a filesystem map
(`none` = file absent): a missing file and a file whose contents fail to
parse both produce `null` (here `none`). -/
def loadEpisodeMetadata (fs : String → Option FileContent)
    (directory metadataFile : String) : Option Json :=
  match fs (joinPath directory metadataFile) with
  | none => none
  | some .malformed => none
  | some (.parsed v) => some v

/-- `loadTranscript` from `label-speakers.ts`: a missing file and a file
whose contents fail to parse both produce the empty array. -/
def loadTranscript (fs : String → Option FileContent)
    (directory transcriptFile : String) : Json :=
  match fs (joinPath directory transcriptFile) with
  | none => .arr []
  | some .malformed => .arr []
  | some (.parsed v) => v

/-- `feedTitle.replace(/[^a-z0-9]/gi, "_")`: every character outside
ASCII letters and digits becomes one underscore. -/
def jsReplaceNonAlnum (s : String) : String :=
  ⟨s.data.map (fun c => if c.isAlphanum then c else '_')⟩

/-- `.toLowerCase()` (the input at the call sites contains only ASCII
letters, digits and underscores, on which `Char.toLower` agrees with the
JavaScript builtin). -/
def jsToLowerCase (s : String) : String := ⟨s.data.map Char.toLower⟩

/-- The podcast directory name computed in `downloadEpisode`
(`index.ts`, `download-metadata.ts`) and `saveMetadata`:
`episode.feedTitle.replace(/[^a-z0-9]/gi, "_").toLowerCase()`. -/
def sanitizeFeedTitle (s : String) : String := jsToLowerCase (jsReplaceNonAlnum s)

/-- Helper for the spec-side name derivation: emit one underscore per
run of non-alphanumeric characters (`prevRun` records whether the
previous character was part of such a run). -/
def collapseRunsAux (prevRun : Bool) : List Char → List Char
  | [] => []
  | c :: rest =>
      if c.isAlphanum then c :: collapseRunsAux false rest
      else if prevRun then collapseRunsAux true rest
      else '_' :: collapseRunsAux true rest

/-- The directory-name derivation as claim C8 words it (for comparison
with `sanitizeFeedTitle`): lowercase the title and collapse each run of
consecutive non-alphanumeric characters to a single underscore. -/
def collapseRunsName (s : String) : String :=
  ⟨collapseRunsAux false (s.data.map Char.toLower)⟩

/-- The episode fields consumed by the persistence step (`insertData`
keys the existence check and the insert on `episode.id` and logs via
`episode.title`; the remaining copied columns play no role in any
claim). -/
structure EpisodeData where
  id : Int
  title : String
deriving DecidableEq

/-- One entry of a labeled transcript as read by the persistence step
(`labeledSpeaker` is optional there: `ts.labeledSpeaker || null`). -/
structure TranscriptEntry where
  speaker : String
  labeledSpeaker : Option String
  timestampFrom : String
  timestampTo : String
  content : String
deriving DecidableEq

/-- One element of `validatedData`. -/
structure ValidatedItem where
  episode : EpisodeData
  transcript : Option (List TranscriptEntry)
deriving DecidableEq

/-- A row of the `episodes` table (identity column plus the columns the
claims mention). -/
structure EpisodeRow where
  rowId : Nat
  externalId : String
  title : String
deriving DecidableEq

/-- A row of the `episode_timestamps` table. -/
structure TimestampRow where
  episodeId : Nat
  speaker : String
  labeledSpeaker : Option String
  timestampFrom : String
  timestampTo : String
  content : String
deriving DecidableEq

/-- The durable store: both tables plus the identity-column counter. -/
structure Db where
  nextId : Nat
  episodes : List EpisodeRow
  timestamps : List TimestampRow
deriving DecidableEq

/-- The pre-insert existence check:
`db.select().from(episodesTable).where(eq(episodesTable.externalId, String(episode.id)))`
returned a non-empty list. -/
def episodeExists (db : Db) (externalId : String) : Bool :=
  db.episodes.any (fun r => r.externalId = externalId)

/-- The body of the `for` loop of `insertData` in `index.ts` for one
validated item: skip (logging) when the external id is already present,
otherwise insert the episode row and, when a non-empty transcript is
attached, its timestamp rows.  Returns the new state and the log lines. -/
def insertOne (db : Db) (item : ValidatedItem) : Db × List String :=
  if episodeExists db (toString item.episode.id) then
    (db, ["Skipping episode " ++ item.episode.title
            ++ " (and its timestamps) - already exists in database"])
  else
    let row : EpisodeRow := ⟨db.nextId, toString item.episode.id, item.episode.title⟩
    let db1 : Db := ⟨db.nextId + 1, db.episodes ++ [row], db.timestamps⟩
    match item.transcript with
    | some ts =>
        if ts.isEmpty then (db1, ["✓ Inserted episode: " ++ item.episode.title])
        else
          (⟨db1.nextId, db1.episodes,
             db1.timestamps ++ ts.map (fun t =>
               ⟨row.rowId, t.speaker, t.labeledSpeaker,
                t.timestampFrom, t.timestampTo, t.content⟩)⟩,
           ["✓ Inserted episode: " ++ item.episode.title,
            "✓ Inserted " ++ toString ts.length ++ " timestamps for episode: "
              ++ item.episode.title])
    | none => (db1, ["✓ Inserted episode: " ++ item.episode.title])

/-- The whole `insertData` batch, threading the store through the loop. -/
def insertData (db : Db) (validatedData : List ValidatedItem) : Db :=
  match validatedData with
  | [] => db
  | item :: rest => insertData (insertOne db item).1 rest

/-- `s.endsWith(pat)`.  (`String.endsWith` of the library is positional
and does not evaluate inside the kernel; this character-list version is
extensionally the same function.) -/
def strEndsWith (s pat : String) : Bool := pat.data.isSuffixOf s.data

/-!
A node of a directory tree: `readdirSync` entries are either plain
files or subdirectories with their own listings (a mutual inductive so
that the directory walks below stay structurally recursive).
-/
mutual
inductive Entry where
  | file (name : String)
  | dir (name : String) (children : EntryList)
inductive EntryList where
  | nil
  | cons (e : Entry) (rest : EntryList)
end

/-- The name under which an entry appears in its directory listing. -/
def entryName : Entry → String
  | .file n => n
  | .dir n _ => n

/-- `fs.existsSync(path.join(dir, name))` for a name inside a listed
directory. -/
def entryExists : EntryList → String → Bool
  | .nil, _ => false
  | .cons e rest, name => entryName e = name || entryExists rest name

/-- The entries of a listing, as a plain list (for stating membership). -/
def entriesOf : EntryList → List Entry
  | .nil => []
  | .cons e rest => e :: entriesOf rest

/-- The names of a listing, as a plain list (for readable statements
about concrete trees). -/
def entryNames : EntryList → List String
  | .nil => []
  | .cons e rest => entryName e :: entryNames rest

/-- A listing consisting of plain files with the given names. -/
def filesOf : List String → EntryList
  | [] => .nil
  | n :: rest => .cons (.file n) (filesOf rest)

/-- `file.replace("_transcript.json", "_transcript_labeled.json")`:
JavaScript `String.replace` with a string pattern rewrites the first
occurrence only. -/
def replaceFirstAux (pat repl : List Char) : List Char → List Char
  | [] => []
  | c :: rest =>
      if pat.isPrefixOf (c :: rest) then repl ++ (c :: rest).drop pat.length
      else c :: replaceFirstAux pat repl rest

/-- `s.replace(pat, repl)` for a string pattern (first occurrence). -/
def jsReplaceFirst (s pat repl : String) : String :=
  ⟨replaceFirstAux pat.data repl.data s.data⟩

/-- The labeled-artifact name `findTranscriptFile` checks for. -/
def labeledFileName (name : String) : String :=
  jsReplaceFirst name "_transcript.json" "_transcript_labeled.json"

/-- The recursive `findTranscript` closure of `findTranscriptFile` in
`label-speakers.ts`.  `all` is the listing of the directory currently
being scanned (used by the `existsSync` sibling check), the last
argument the entries not yet visited; subdirectories are searched
depth-first before later siblings, and a transcript file is returned
only when its labeled sibling is absent in its own directory. -/
def findTranscriptList (all : EntryList) : EntryList → Option (String × EntryList)
  | .nil => none
  | .cons (.file name) rest =>
      if strEndsWith name "_transcript.json" && !strEndsWith name "_labeled.json" then
        if entryExists all (labeledFileName name) then findTranscriptList all rest
        else some (name, all)
      else findTranscriptList all rest
  | .cons (.dir _ children) rest =>
      match findTranscriptList children children with
      | some r => some r
      | none => findTranscriptList all rest

/-- `findTranscriptFile(dataDir)`: search the root listing. -/
def findTranscriptFile (root : EntryList) : Option (String × EntryList) :=
  findTranscriptList root root

/-- `path.parse(f).name`: the file name without its last extension; a
leading dot that is the only dot does not start an extension (Node's
rule for dotfiles). -/
def parseName (f : String) : String :=
  let cs := f.data
  let afterDot := cs.reverse.takeWhile (fun c => c ≠ '.')
  if afterDot.length = cs.length then f
  else
    let stem := cs.take (cs.length - afterDot.length - 1)
    if stem.isEmpty then f else ⟨stem⟩

/-- The transcript artifact name for a metadata file:
`${path.parse(metadataFile).name}_transcript.json`. -/
def transcriptFileName (metadataFile : String) : String :=
  parseName metadataFile ++ "_transcript.json"

/-- `hasExistingTranscript(directory, metadataFile)` over the directory
listing: `fs.existsSync` of the transcript sibling. -/
def hasExistingTranscript (files : List String) (metadataFile : String) : Bool :=
  files.contains (transcriptFileName metadataFile)

/-- The metadata-file filter of `processPodcastDirectory` in the
resumable transcription stage: `.json` files that are neither transcript
nor labeled-transcript artifacts. -/
def metadataFilesOf (files : List String) : List String :=
  files.filter (fun f =>
    strEndsWith f ".json" && !strEndsWith f "_transcript.json"
      && !strEndsWith f "_transcript_labeled.json")

/-- The per-episode facts the transcription stage observes through its
external collaborators: whether `loadEpisodeMetadata` produced metadata
carrying an `enclosureUrl`, and whether the remote `transcribeAudio`
call for that URL succeeds. -/
structure EpisodeMeta where
  hasEnclosureUrl : Bool
  transcribeOk : Bool
deriving DecidableEq

/-- One entry of the `data` directory as the orchestrator of the
transcription stage sees it: its `statSync(...).isDirectory()` result,
its listing, and the per-metadata-file facts above (`none` models a
metadata file that fails to load). -/
structure PodcastDirState where
  isDirectory : Bool
  files : List String
  attrs : List (String × EpisodeMeta)
deriving DecidableEq

/-- The `for (const metadataFile of metadataFiles)` loop of
`processPodcastDirectory`: skip on unreadable metadata or missing
enclosure URL, skip when the transcript sibling exists, stop with
success after the first successful transcription, record a failed
attempt and continue otherwise.  Returns the loop result together with
the list of metadata files for which `transcribeAudio` was invoked. -/
def processFiles (files : List String) (attrs : List (String × EpisodeMeta)) :
    List String → Bool × List String
  | [] => (false, [])
  | f :: rest =>
      match assocLookup f attrs with
      | none => processFiles files attrs rest
      | some meta =>
          if !meta.hasEnclosureUrl then processFiles files attrs rest
          else if hasExistingTranscript files f then processFiles files attrs rest
          else if meta.transcribeOk then (true, [f])
          else
            let r := processFiles files attrs rest
            (r.1, f :: r.2)

/-- `processPodcastDirectory(directory)`: returns whether a file was
successfully processed, plus the invoked transcriptions. -/
def processPodcastDirectory (d : PodcastDirState) : Bool × List String :=
  processFiles d.files d.attrs (metadataFilesOf d.files)

/-- The `while (processedCount < numPodcasts && currentIndex < podcastDirs.length)`
loop of the transcription stage's `main`: non-directories are passed
over, a directory counts toward the budget only when
`processPodcastDirectory` reports success. -/
def mainLoop (numPodcasts : Int) : List PodcastDirState → Nat → Nat
  | [], processedCount => processedCount
  | d :: rest, processedCount =>
      if (processedCount : Int) < numPodcasts then
        let processedCount' :=
          if d.isDirectory then
            if (processPodcastDirectory d).1 then processedCount + 1 else processedCount
          else processedCount
        mainLoop numPodcasts rest processedCount'
      else processedCount

/-- A directory that counts toward the budget when visited. -/
def dirYields (d : PodcastDirState) : Bool :=
  d.isDirectory && (processPodcastDirectory d).1

/-- `parseInt(s)` in base 10: optional sign, then the longest digit
prefix; `none` models `NaN`. -/
def jsParseInt (s : String) : Option Int :=
  let digitsVal := fun (cs : List Char) =>
    match cs.takeWhile Char.isDigit with
    | [] => (none : Option Nat)
    | ds => some (ds.foldl (fun (n : Nat) (c : Char) => n * 10 + (c.toNat - 48)) 0)
  match s.data with
  | '-' :: rest => (digitsVal rest).map (fun n => -(n : Int))
  | '+' :: rest => (digitsVal rest).map (fun n => (n : Int))
  | cs => (digitsVal cs).map (fun n => (n : Int))

/-- `parseInt(process.argv[2]) || 1`: the optional positional argument;
`NaN` (no argument, or no digits) and `0` are falsy and fall back to 1. -/
def parseBudget (arg : Option String) : Int :=
  match arg with
  | none => 1
  | some s =>
      match jsParseInt s with
      | none => 1
      | some v => if v = 0 then 1 else v

/-- A filesystem with no files (for the reader counterexample). -/
def fsAllMissing : String → Option FileContent := fun _ => none

/-- A filesystem on which every path exists but holds bytes that
`JSON.parse` rejects. -/
def fsAllMalformed : String → Option FileContent := fun _ => some .malformed

/-- A store already holding the episode row with external id "5". -/
def dbWithRow : Db := ⟨1, [⟨0, "5", "t"⟩], []⟩

/-- A validated item whose episode carries id 5. -/
def itemFive : ValidatedItem := ⟨⟨5, "t"⟩, none⟩

/-- A two-segment transcript used as a concrete labeling input. -/
def transcriptEx : List TranscriptSegment :=
  [⟨"Speaker 0", "0:00", "0:05", "hello"⟩, ⟨"Speaker 1", "0:05", "0:09", "hi"⟩]

/-- Whether a listing contains a plain file of the given name. -/
def hasFileNamed : EntryList → String → Bool
  | .nil, _ => false
  | .cons (.file n) rest, name => n = name || hasFileNamed rest name
  | .cons (.dir _ _) rest, name => hasFileNamed rest name

/-- A fully processed episode pair: metadata, audio, transcript and
labeled transcript for episodes 1 and 2. -/
def filesComplete : List String :=
  ["1.json", "1.mp3", "1_transcript.json", "1_transcript_labeled.json",
   "2.json", "2.mp3", "2_transcript.json", "2_transcript_labeled.json"]

/-- `filesComplete` with episode 1's labeled transcript (the labeling
stage's output) deleted. -/
def filesNoLabeled1 : List String :=
  ["1.json", "1.mp3", "1_transcript.json",
   "2.json", "2.mp3", "2_transcript.json", "2_transcript_labeled.json"]

/-- `filesComplete` with episode 1's transcript (the transcription
stage's output) deleted. -/
def filesNoTranscript1 : List String :=
  ["1.json", "1.mp3", "1_transcript_labeled.json",
   "2.json", "2.mp3", "2_transcript.json", "2_transcript_labeled.json"]

/-- Both episodes' metadata load fine, carry an enclosure URL, and
transcribe successfully. -/
def attrsBoth : List (String × EpisodeMeta) :=
  [("1.json", ⟨true, true⟩), ("2.json", ⟨true, true⟩)]

/-- A data root holding one podcast directory with `filesComplete`. -/
def treeComplete : EntryList := .cons (.dir "some_podcast" (filesOf filesComplete)) .nil

/-- A data root holding one podcast directory with `filesNoLabeled1`. -/
def treeNoLabeled1 : EntryList := .cons (.dir "some_podcast" (filesOf filesNoLabeled1)) .nil

/-- A data root holding one podcast directory with `filesNoTranscript1`. -/
def treeNoTranscript1 : EntryList :=
  .cons (.dir "some_podcast" (filesOf filesNoTranscript1)) .nil

/-- Claim C3's wording of timestamp acceptance: digits, a colon, then
exactly two digits, whose two-digit value is below 60. -/
def specTimestampAccepted (s : String) : Prop :=
  ∃ (ds : List Char) (a b : Char),
    s.data = ds ++ [':', a, b] ∧ ds ≠ [] ∧ (∀ c ∈ ds, c.isDigit = true) ∧
    a.isDigit = true ∧ b.isDigit = true ∧ twoDigitVal a b < 60

/-- A transcript entry whose other fields are well formed, carrying the
timestamps under test. -/
def entryWithTimestamps (s t : String) : Json :=
  .obj [("speaker", .str "Speaker 0"), ("timestampFrom", .str s),
        ("timestampTo", .str t), ("content", .str "hello")]

/-- The field is present, a string, and non-empty. -/
def truthyStringField (e : Json) (field : String) : Bool :=
  match getField e field with
  | some (.str sv) => sv != ""
  | _ => false

/-- The field passes the validator's two timestamp checks. -/
def timestampFieldOk (e : Json) (field : String) : Bool :=
  timestampRegexTest (jsRegexCoerce (getField e field))
    && decide (timestampSeconds (jsRegexCoerce (getField e field)) < 60)

/-- Claim C4's notion of a well-formed transcript entry: an object whose
four required fields are non-empty strings and whose timestamps match
the pattern with seconds below 60 (the exact conditions
`validateTranscriptData` checks per element). -/
def entryWellFormed (e : Json) : Bool :=
  jsTruthy e && jsIsObjectType e
    && truthyStringField e "speaker" && truthyStringField e "timestampFrom"
    && truthyStringField e "timestampTo" && truthyStringField e "content"
    && timestampFieldOk e "timestampFrom" && timestampFieldOk e "timestampTo"

/-- An entry whose `timestampFrom` is the array `["5:00"]`: the field
check flags it as a non-string, but the format test coerces it to
`"5:00"`, passes, and the subsequent `.split(":")` on the array throws
a `TypeError`. -/
def throwingEntry : Json :=
  Json.obj [("speaker", Json.str "Speaker 0"),
            ("timestampFrom", Json.arr [Json.str "5:00"]),
            ("timestampTo", Json.str "0:00"),
            ("content", Json.str "hi")]

/-- An array with two malformed entries on which validation raises at
the first entry, so no error list at all is returned for the second. -/
def throwingPair : List Json := [throwingEntry, Json.num 3]

/-- An array with two malformed entries: a non-object, and an entry
whose `timestampTo` has seconds above 59. -/
def malformedPair : List Json :=
  [Json.num 3,
   Json.obj [("speaker", Json.str "Speaker 0"), ("timestampFrom", Json.str "0:00"),
             ("timestampTo", Json.str "0:70"), ("content", Json.str "hi")]]

/-- Claim C6's wording: `id` is an integer. -/
def intField (data : Json) (field : String) : Bool :=
  match getField data field with
  | some (.num _) => true
  | _ => false

/-- Claim C6's wording: the field, when present, is numeric. -/
def optionalNumericPresent (data : Json) (field : String) : Bool :=
  match getField data field with
  | none => true
  | some v => jsIsNumberType v

/-- Claim C6's reading of `validateEpisode` success: `id` an integer,
`title` a non-empty string, optional fields numeric when present. -/
def claimEpisodeValid (data : Json) : Bool :=
  intField data "id" && truthyStringField data "title"
    && optionalNumericPresent data "datePublished"
    && optionalNumericPresent data "dateCrawled"
    && optionalNumericPresent data "duration"
    && optionalNumericPresent data "episode"

/-- An episode object with integer id 0 and a non-empty title. -/
def episodeZeroId : Json := Json.obj [("id", Json.num 0), ("title", Json.str "Some title")]

/-- The field is present, truthy and a number (the check the source
actually performs for `id`). -/
def truthyNumberField (data : Json) (field : String) : Bool :=
  match getField data field with
  | some v => jsTruthy v && jsIsNumberType v
  | none => false

/-- The field does not trigger the optional-field error: absent, falsy,
or a number. -/
def optionalFieldOk (data : Json) (field : String) : Bool :=
  match getField data field with
  | some v => !(jsTruthy v && !jsIsNumberType v)
  | none => true

/-- An episode object with a string `id` and a string `duration`. -/
def episodeBadFields : Json :=
  Json.obj [("id", Json.str "x"), ("title", Json.str "t"), ("duration", Json.str "long")]

lemma mapSet_lookup_self (k v : String) :
    ∀ m : List (String × String), (assocLookup k m).isSome →
      assocLookup k (m.map (fun p => if p.1 = k then (k, v) else p)) = some v := by
  intro m
  induction m with
  | nil => simp [assocLookup]
  | cons p rest ih =>
      intro hp
      simp only [List.map_cons]
      by_cases hk : p.1 = k
      · rw [if_pos hk]
        simp [assocLookup]
      · rw [if_neg hk]
        simp only [assocLookup] at hp ⊢
        rw [if_neg hk] at hp ⊢
        exact ih hp

lemma append_lookup_absent (k v : String) :
    ∀ m : List (String × String), assocLookup k m = none →
      assocLookup k (m ++ [(k, v)]) = some v := by
  intro m
  induction m with
  | nil => simp [assocLookup]
  | cons p rest ih =>
      intro hp
      by_cases hk : p.1 = k
      · simp [assocLookup, hk] at hp
      · simp only [assocLookup, hk, if_false] at hp
        simp only [List.cons_append, assocLookup, hk, if_false]
        exact ih hp

lemma mapSet_lookup_other (k v s : String) (hne : s ≠ k) :
    ∀ m : List (String × String),
      assocLookup s (m.map (fun p => if p.1 = k then (k, v) else p)) = assocLookup s m := by
  intro m
  induction m with
  | nil => rfl
  | cons p rest ih =>
      simp only [List.map_cons]
      by_cases hk : p.1 = k
      · have hps : p.1 ≠ s := by rw [hk]; exact fun h => hne h.symm
        rw [if_pos hk]
        simp only [assocLookup]
        rw [if_neg (fun h : k = s => hne h.symm), if_neg hps]
        exact ih
      · rw [if_neg hk]
        simp only [assocLookup]
        by_cases hps : p.1 = s
        · simp [hps]
        · rw [if_neg hps, if_neg hps]
          exact ih

lemma append_lookup_other (k v s : String) (hne : s ≠ k) :
    ∀ m : List (String × String),
      assocLookup s (m ++ [(k, v)]) = assocLookup s m := by
  intro m
  induction m with
  | nil =>
      simp only [List.nil_append, assocLookup]
      rw [if_neg (fun h : k = s => hne h.symm)]
  | cons p rest ih =>
      simp only [List.cons_append, assocLookup]
      by_cases hps : p.1 = s
      · simp [hps]
      · rw [if_neg hps, if_neg hps]
        exact ih

lemma assocLookup_objSet_self (m : List (String × String)) (k v : String) :
    assocLookup k (objSet m k v) = some v := by
  unfold objSet
  by_cases hp : (assocLookup k m).isSome
  · simp only [hp, if_true]
    exact mapSet_lookup_self k v m hp
  · simp only [hp, if_false]
    apply append_lookup_absent
    revert hp
    cases assocLookup k m <;> simp

lemma assocLookup_objSet_other (m : List (String × String)) (k v s : String)
    (hne : s ≠ k) : assocLookup s (objSet m k v) = assocLookup s m := by
  unfold objSet
  by_cases hp : (assocLookup k m).isSome
  · simp only [hp, if_true]
    exact mapSet_lookup_other k v s hne m
  · simp only [hp, if_false]
    exact append_lookup_other k v s hne m

lemma ensureAllSpeakers_preserves (speakers : List String) :
    ∀ (m : List (String × String)) (s l : String),
      assocLookup s m = some l → l ≠ "" →
      ∃ l', assocLookup s (ensureAllSpeakers speakers m) = some l' ∧ l' ≠ "" := by
  induction speakers with
  | nil => exact fun m s l h hl => ⟨l, h, hl⟩
  | cons x rest ih =>
      intro m s l h hl
      simp only [ensureAllSpeakers]
      by_cases hsx : s = x
      · subst hsx
        rw [h]
        dsimp only
        by_cases he : l = ""
        · exact absurd he hl
        · rw [if_neg he]
          exact ih m s l h hl
      · cases hx : assocLookup x m with
        | none =>
            dsimp only
            exact ih _ s l ((assocLookup_objSet_other m x "Unknown Speaker" s hsx).trans h) hl
        | some lx =>
            dsimp only
            by_cases he : lx = ""
            · rw [he, if_pos rfl]
              exact ih _ s l ((assocLookup_objSet_other m x "Unknown Speaker" s hsx).trans h) hl
            · rw [if_neg he]
              exact ih m s l h hl

lemma ensureAllSpeakers_covers (speakers : List String) :
    ∀ (m : List (String × String)) (s : String), s ∈ speakers →
      ∃ l, assocLookup s (ensureAllSpeakers speakers m) = some l ∧ l ≠ "" := by
  induction speakers with
  | nil => intro m s h; cases h
  | cons x rest ih =>
      intro m s h
      simp only [ensureAllSpeakers]
      rcases List.mem_cons.1 h with rfl | hr
      · cases hx : assocLookup s m with
        | none =>
            dsimp only
            exact ensureAllSpeakers_preserves rest _ s "Unknown Speaker"
              (assocLookup_objSet_self m s "Unknown Speaker") (by decide)
        | some lx =>
            dsimp only
            by_cases he : lx = ""
            · rw [he, if_pos rfl]
              exact ensureAllSpeakers_preserves rest _ s "Unknown Speaker"
                (assocLookup_objSet_self m s "Unknown Speaker") (by decide)
            · rw [if_neg he]
              exact ensureAllSpeakers_preserves rest m s lx hx he
      · cases hx : assocLookup x m with
        | none =>
            dsimp only
            exact ih _ s hr
        | some lx =>
            dsimp only
            by_cases he : lx = ""
            · rw [he, if_pos rfl]
              exact ih _ s hr
            · rw [if_neg he]
              exact ih m s hr

lemma map_unknown_lookup (speakers : List String) (s : String) (h : s ∈ speakers) :
    assocLookup s (speakers.map (fun t => (t, "Unknown Speaker")))
      = some "Unknown Speaker" := by
  induction speakers with
  | nil => cases h
  | cons x rest ih =>
      simp only [List.map_cons, assocLookup]
      rcases List.mem_cons.1 h with rfl | hr
      · simp
      · by_cases hx : x = s
        · simp [hx]
        · rw [if_neg hx]
          exact ih hr

lemma episodeExists_insertOne (db : Db) (item : ValidatedItem) (ext : String)
    (h : episodeExists db ext = true) :
    episodeExists (insertOne db item).1 ext = true := by
  unfold insertOne
  by_cases hp : episodeExists db (toString item.episode.id) = true
  · simp [hp, h]
  · simp only [Bool.not_eq_true] at hp
    simp only [hp]
    cases item.transcript with
    | none =>
        simp only [episodeExists, List.any_append] at h ⊢
        simp [h]
    | some ts =>
        by_cases he : ts.isEmpty <;>
          simp only [he, if_true, if_false, Bool.false_eq_true, episodeExists,
            List.any_append] at h ⊢ <;> simp [episodeExists, List.any_append, h]

lemma episodeExists_insertOne_self (db : Db) (item : ValidatedItem) :
    episodeExists (insertOne db item).1 (toString item.episode.id) = true := by
  unfold insertOne
  by_cases hp : episodeExists db (toString item.episode.id) = true
  · simp [hp]
  · simp only [Bool.not_eq_true] at hp
    simp only [hp]
    cases item.transcript with
    | none => simp [episodeExists, List.any_append]
    | some ts =>
        by_cases he : ts.isEmpty <;> simp [he, episodeExists, List.any_append]

lemma episodeExists_insertData (db : Db) (items : List ValidatedItem) (ext : String)
    (h : episodeExists db ext = true) :
    episodeExists (insertData db items) ext = true := by
  induction items generalizing db with
  | nil => simpa [insertData] using h
  | cons item rest ih =>
      simp only [insertData]
      exact ih _ (episodeExists_insertOne db item ext h)

lemma episodeExists_insertData_mem (db : Db) (items : List ValidatedItem)
    (item : ValidatedItem) (h : item ∈ items) :
    episodeExists (insertData db items) (toString item.episode.id) = true := by
  induction items generalizing db with
  | nil => cases h
  | cons x rest ih =>
      simp only [insertData]
      rcases List.mem_cons.1 h with rfl | h2
      · exact episodeExists_insertData _ rest _ (episodeExists_insertOne_self db item)
      · exact ih _ h2

lemma insertOne_skip (db : Db) (item : ValidatedItem)
    (h : episodeExists db (toString item.episode.id) = true) :
    insertOne db item = (db, ["Skipping episode " ++ item.episode.title
      ++ " (and its timestamps) - already exists in database"]) := by
  unfold insertOne
  simp [h]

lemma insertData_noop (db : Db) (items : List ValidatedItem)
    (h : ∀ item ∈ items, episodeExists db (toString item.episode.id) = true) :
    insertData db items = db := by
  induction items with
  | nil => rfl
  | cons x rest ih =>
      simp only [insertData]
      rw [insertOne_skip db x (h x (List.mem_cons_self x rest))]
      exact ih (fun item hm => h item (List.mem_cons_of_mem x hm))

lemma mainLoop_closed (n : Int) (dirs : List PodcastDirState) :
    ∀ c : Nat, mainLoop n dirs c =
      if (c : Int) < n then min n.toNat (c + dirs.countP dirYields) else c := by
  induction dirs with
  | nil =>
      intro c
      simp only [mainLoop, List.countP_nil, Nat.add_zero]
      by_cases hc : (c : Int) < n
      · rw [if_pos hc]
        omega
      · rw [if_neg hc]
  | cons d rest ih =>
      intro c
      simp only [mainLoop, List.countP_cons]
      by_cases hc : (c : Int) < n
      · rw [if_pos hc, if_pos hc]
        by_cases hy : dirYields d
        · have hand := hy
          simp only [dirYields, Bool.and_eq_true] at hand
          rw [if_pos hand.1, if_pos hand.2, ih (c + 1)]
          simp only [hy, if_true]
          by_cases hc1 : ((c + 1 : Nat) : Int) < n
          · rw [if_pos hc1]
            omega
          · rw [if_neg hc1]
            omega
        · have hyf : dirYields d = false := by
            revert hy
            cases dirYields d <;> simp
          have hn : (if d.isDirectory then
              if (processPodcastDirectory d).1 then c + 1 else c
              else c) = c := by
            by_cases hd : d.isDirectory
            · have hp : (processPodcastDirectory d).1 = false := by
                revert hyf
                simp only [dirYields, hd, Bool.true_and]
                exact fun h => h
              rw [if_pos hd, hp, if_neg (by simp)]
            · rw [if_neg hd]
          rw [hn, ih c, if_pos hc]
          simp [hyf]
      · rw [if_neg hc, if_neg hc]

lemma findTranscriptList_sound : ∀ (all l : EntryList),
    (∀ n, hasFileNamed l n = true → hasFileNamed all n = true) →
    ∀ name d, findTranscriptList all l = some (name, d) →
      strEndsWith name "_transcript.json" = true ∧ hasFileNamed d name = true ∧
      entryExists d (labeledFileName name) = false := by
  intro all l
  induction all, l using findTranscriptList.induct with
  | case1 all =>
      intro _ name d hfind
      simp [findTranscriptList] at hfind
  | case2 all nm rest hcond hex ih =>
      intro h name d hfind
      rw [findTranscriptList, if_pos hcond, if_pos hex] at hfind
      exact ih (fun n hn => h n (by simp [hasFileNamed, hn])) name d hfind
  | case3 all nm rest hcond hex =>
      intro h name d hfind
      rw [findTranscriptList, if_pos hcond, if_neg hex] at hfind
      obtain ⟨rfl, rfl⟩ : nm = name ∧ all = d := by
        constructor <;> [exact congrArg Prod.fst (Option.some.inj hfind);
          exact congrArg Prod.snd (Option.some.inj hfind)]
      refine ⟨((Bool.and_eq_true _ _).mp hcond).1, ?_, ?_⟩
      · exact h nm (by simp [hasFileNamed])
      · revert hex
        cases entryExists all (labeledFileName nm) <;> simp
  | case4 all nm rest hcond ih =>
      intro h name d hfind
      rw [findTranscriptList, if_neg hcond] at hfind
      exact ih (fun n hn => h n (by simp [hasFileNamed, hn])) name d hfind
  | case5 all nm children rest r hr ih =>
      intro h name d hfind
      rw [findTranscriptList, hr] at hfind
      exact ih (fun n hn => hn) name d (hr.trans hfind)
  | case6 all nm children rest hr ihc ih =>
      intro h name d hfind
      rw [findTranscriptList, hr] at hfind
      exact ih (fun n hn => h n (by simp [hasFileNamed, hn])) name d hfind

lemma processFiles_no_existing (files : List String) (attrs : List (String × EpisodeMeta)) :
    ∀ (l : List String) (f : String), f ∈ (processFiles files attrs l).2 →
      hasExistingTranscript files f = false := by
  intro l
  induction l with
  | nil => intro f hf; simp [processFiles] at hf
  | cons x rest ih =>
      intro f hf
      rw [processFiles] at hf
      cases hx : assocLookup x attrs with
      | none =>
          rw [hx] at hf
          exact ih f hf
      | some meta =>
          rw [hx] at hf
          dsimp only at hf
          by_cases he : meta.hasEnclosureUrl
          · rw [if_neg (by simp [he])] at hf
            by_cases ht : hasExistingTranscript files x
            · rw [if_pos ht] at hf
              exact ih f hf
            · rw [if_neg ht] at hf
              by_cases hok : meta.transcribeOk
              · rw [if_pos hok] at hf
                rcases List.mem_singleton.1 hf with rfl
                revert ht
                cases hasExistingTranscript files f <;> simp
              · rw [if_neg hok] at hf
                rcases List.mem_cons.1 hf with rfl | hr
                · revert ht
                  cases hasExistingTranscript files f <;> simp
                · exact ih f hr
          · rw [if_pos (by revert he; cases meta.hasEnclosureUrl <;> simp)] at hf
            exact ih f hf

lemma dropWhile_digits_colon (ds t : List Char) (h : ∀ c ∈ ds, c.isDigit = true) :
    (ds ++ ':' :: t).dropWhile Char.isDigit = ':' :: t := by
  induction ds with
  | nil =>
      simp only [List.nil_append, List.dropWhile_cons]
      rw [if_neg (by decide)]
  | cons c rest ih =>
      have hc : c.isDigit = true := h c (List.mem_cons_self c rest)
      simp only [List.cons_append, List.dropWhile_cons, hc, if_true]
      exact ih (fun x hx => h x (List.mem_cons_of_mem c hx))

lemma takeWhile_digits_colon (ds t : List Char) (h : ∀ c ∈ ds, c.isDigit = true) :
    (ds ++ ':' :: t).takeWhile Char.isDigit = ds := by
  induction ds with
  | nil =>
      simp only [List.nil_append, List.takeWhile_cons]
      rw [if_neg (by decide)]
  | cons c rest ih =>
      have hc : c.isDigit = true := h c (List.mem_cons_self c rest)
      simp only [List.cons_append, List.takeWhile_cons, hc, if_true]
      rw [ih (fun x hx => h x (List.mem_cons_of_mem c hx))]

lemma timestampOk_iff (s : String) :
    (timestampRegexTest s = true ∧ timestampSeconds s < 60) ↔ specTimestampAccepted s := by
  constructor
  · rintro ⟨hreg, hsec⟩
    rw [timestampRegexTest] at hreg
    split at hreg
    · next a b heq =>
        refine ⟨s.data.takeWhile Char.isDigit, a, b, ?_, ?_, ?_, ?_, ?_, ?_⟩
        · conv_lhs => rw [← List.takeWhile_append_dropWhile (p := Char.isDigit) (l := s.data)]
          rw [heq]
        · rcases (Bool.and_eq_true _ _).mp ((Bool.and_eq_true _ _).mp hreg).1 with ⟨hne, _⟩
          intro hemp
          rw [hemp] at hne
          exact absurd hne (by decide)
        · intro c hc
          exact List.mem_takeWhile_imp hc
        · exact ((Bool.and_eq_true _ _).mp ((Bool.and_eq_true _ _).mp hreg).1).2
        · exact ((Bool.and_eq_true _ _).mp hreg).2
        · rw [timestampSeconds, heq] at hsec
          exact hsec
    · exact absurd hreg (by simp)
  · rintro ⟨ds, a, b, hdata, hne, hdig, ha, hb, hval⟩
    have hdw : s.data.dropWhile Char.isDigit = ':' :: [a, b] := by
      rw [hdata]
      exact dropWhile_digits_colon ds [a, b] hdig
    have htw : s.data.takeWhile Char.isDigit = ds := by
      rw [hdata]
      exact takeWhile_digits_colon ds [a, b] hdig
    constructor
    · rw [timestampRegexTest]
      simp only [hdw, htw]
      have : ds.isEmpty = false := by
        cases ds with
        | nil => exact absurd rfl hne
        | cons x xs => rfl
      simp [this, ha, hb]
    · rw [timestampSeconds, hdw]
      exact hval

lemma validate_entryWith (s : String) :
    (validateTranscriptData (Json.arr [entryWithTimestamps s "5:00"])).isValid
      = (timestampRegexTest s && decide (timestampSeconds s < 60)) := by
  by_cases hs : s = ""
  · subst hs
    decide
  · have h1 : ¬ (timestampRegexTest "5:00" = false) := by decide
    have h2 : ¬ (60 ≤ timestampSeconds "5:00") := by decide
    have hs' : (s != "") = true := by
      simp [bne, beq_iff_eq, hs]
    simp only [validateTranscriptData, transcriptErrorsFrom, entryErrors,
      entryWithTimestamps, getField, assocLookup, timestampFieldErrors, jsRegexCoerce,
      jsTruthy, jsIsObjectType, jsIsStringType, if_true, if_false,
      List.append_nil, List.nil_append, hs']
    by_cases hreg : timestampRegexTest s = true
    · by_cases hsec : timestampSeconds s < 60
      · have h3 : ¬ (60 ≤ timestampSeconds s) := by omega
        simp [hreg, h3, hsec, hs, h1, h2]
      · have h3 : 60 ≤ timestampSeconds s := by omega
        simp [hreg, h3, hsec, hs, h1, h2]
    · have hregf : timestampRegexTest s = false := by
        revert hreg
        cases timestampRegexTest s <;> simp
      simp [hregf, hs, h1, h2]

lemma wellFormed_of_entryErrors_nil (i : Nat) (e : Json)
    (h : entryErrors i e = []) : entryWellFormed e = true := by
  rw [entryErrors] at h
  split at h
  · exact absurd h (by simp)
  · next hobj =>
      simp only [List.append_eq_nil] at h
      obtain ⟨⟨⟨⟨⟨hsp, hfrom⟩, hto⟩, hcont⟩, htsf⟩, htst⟩ := h
      have hobj' : (jsTruthy e && jsIsObjectType e) = true := by
        revert hobj
        cases jsTruthy e && jsIsObjectType e <;> simp
      have hfield : ∀ f : String,
          (match getField e f with
            | some v =>
                if jsTruthy v && jsIsStringType v then ([] : List String)
                else ["Entry " ++ toString i ++ ": Missing or invalid " ++ f
                       ++ "\nFull entry: " ++ jsonStringify e]
            | none => ["Entry " ++ toString i ++ ": Missing or invalid " ++ f
                        ++ "\nFull entry: " ++ jsonStringify e]) = [] →
          truthyStringField e f = true := by
        intro f hf
        cases hg : getField e f with
        | none => rw [hg] at hf; exact absurd hf (by simp)
        | some v =>
            rw [hg] at hf
            dsimp only at hf
            split at hf
            · next hc =>
                cases v with
                | str sv =>
                    rw [truthyStringField, hg]
                    simpa [jsTruthy, jsIsStringType] using hc
                | null => simp [jsIsStringType] at hc
                | bool b => simp [jsIsStringType] at hc
                | num n => simp [jsIsStringType] at hc
                | arr xs => simp [jsIsStringType] at hc
                | obj fs => simp [jsIsStringType] at hc
            · exact absurd hf (by simp)
      have hts : ∀ f : String, timestampFieldErrors i f e = [] →
          timestampFieldOk e f = true := by
        intro f hf
        rw [timestampFieldErrors] at hf
        split at hf
        · exact absurd hf (by simp)
        · next hreg =>
            split at hf
            · exact absurd hf (by simp)
            · next hsec =>
                have h1 : timestampRegexTest (jsRegexCoerce (getField e f)) = true := by
                  revert hreg
                  cases timestampRegexTest (jsRegexCoerce (getField e f)) <;> simp
                rw [timestampFieldOk, h1]
                simp only [Bool.true_and, decide_eq_true_eq]
                omega
      rw [entryWellFormed, hobj', hfield "speaker" hsp, hfield "timestampFrom" hfrom,
        hfield "timestampTo" hto, hfield "content" hcont,
        hts "timestampFrom" htsf, hts "timestampTo" htst]
      rfl

lemma entryErrors_ne_nil (i : Nat) (e : Json) (h : entryWellFormed e = false) :
    entryErrors i e ≠ [] := by
  intro hnil
  rw [wellFormed_of_entryErrors_nil i e hnil] at h
  cases h

lemma entryErrors_prefix (i : Nat) (e : Json) (msg : String)
    (h : msg ∈ entryErrors i e) :
    ∃ rest, msg = "Entry " ++ toString i ++ rest := by
  rw [entryErrors] at h
  split at h
  · rcases List.mem_singleton.1 h with rfl
    exact ⟨" is not an object", rfl⟩
  · have hfield : ∀ (f m : String),
        msg ∈ (match getField e f with
          | some v =>
              if jsTruthy v && jsIsStringType v then ([] : List String)
              else ["Entry " ++ toString i ++ ": Missing or invalid " ++ f
                     ++ "\nFull entry: " ++ m]
          | none => ["Entry " ++ toString i ++ ": Missing or invalid " ++ f
                      ++ "\nFull entry: " ++ m]) →
        ∃ rest, msg = "Entry " ++ toString i ++ rest := by
      intro f m hm
      split at hm
      · split at hm
        · cases hm
        · rcases List.mem_singleton.1 hm with rfl
          exact ⟨": Missing or invalid " ++ f ++ "\nFull entry: " ++ m,
            by simp [String.append_assoc]⟩
      · rcases List.mem_singleton.1 hm with rfl
        exact ⟨": Missing or invalid " ++ f ++ "\nFull entry: " ++ m,
          by simp [String.append_assoc]⟩
    have hts : ∀ (f : String), msg ∈ timestampFieldErrors i f e →
        ∃ rest, msg = "Entry " ++ toString i ++ rest := by
      intro f hm
      rw [timestampFieldErrors] at hm
      split at hm
      · rcases List.mem_singleton.1 hm with rfl
        exact ⟨": Invalid " ++ f ++ " format (should be MM:SS)\nTimestamp: \""
          ++ jsRegexCoerce (getField e f) ++ "\"\nFull entry: " ++ jsonStringify e,
          by simp [String.append_assoc]⟩
      · split at hm
        · rcases List.mem_singleton.1 hm with rfl
          exact ⟨": Invalid " ++ f ++ " - seconds must be less than 60\nTimestamp: \""
            ++ jsRegexCoerce (getField e f) ++ "\"\nFull entry: " ++ jsonStringify e,
            by simp [String.append_assoc]⟩
        · cases hm
    rcases List.mem_append.1 h with h5 | h6
    · rcases List.mem_append.1 h5 with h4 | hts1
      · rcases List.mem_append.1 h4 with h3 | hm4
        · rcases List.mem_append.1 h3 with h2 | hm3
          · rcases List.mem_append.1 h2 with hm1 | hm2
            · exact hfield "speaker" (jsonStringify e) hm1
            · exact hfield "timestampFrom" (jsonStringify e) hm2
          · exact hfield "timestampTo" (jsonStringify e) hm3
        · exact hfield "content" (jsonStringify e) hm4
      · exact hts "timestampFrom" hts1
    · exact hts "timestampTo" h6

lemma transcriptErrorsFrom_mem (entries : List Json) :
    ∀ (start i : Nat) (h : i < entries.length) (msg : String),
      msg ∈ entryErrors (start + i) entries[i] →
      msg ∈ transcriptErrorsFrom start entries := by
  induction entries with
  | nil =>
      intro start i h
      exact absurd h (by simp)
  | cons e rest ih =>
      intro start i h msg hm
      rw [transcriptErrorsFrom]
      cases i with
      | zero =>
          exact List.mem_append_left _ (by simpa using hm)
      | succ j =>
          refine List.mem_append_right _ ?_
          have hj : j < rest.length := by simpa [List.length_cons] using h
          have : start + (j + 1) = (start + 1) + j := by omega
          rw [this] at hm
          exact ih (start + 1) j hj msg (by simpa using hm)

lemma requiredNumErr_eq (data : Json) (f m : String) :
    (match getField data f with
      | some v => if jsTruthy v && jsIsNumberType v then ([] : List String) else [m]
      | none => [m])
    = if truthyNumberField data f then [] else [m] := by
  rw [truthyNumberField]
  cases getField data f with
  | none => rfl
  | some v => cases jsTruthy v && jsIsNumberType v <;> rfl

lemma requiredStrErr_eq (data : Json) (f m : String) :
    (match getField data f with
      | some v => if jsTruthy v && jsIsStringType v then ([] : List String) else [m]
      | none => [m])
    = if truthyStringField data f then [] else [m] := by
  rw [truthyStringField]
  cases hg : getField data f with
  | none => rfl
  | some v => cases v <;> simp [jsTruthy, jsIsStringType, bne]

lemma optionalErr_eq (data : Json) (f m : String) :
    (match getField data f with
      | some v => if jsTruthy v && !jsIsNumberType v then [m] else ([] : List String)
      | none => ([] : List String))
    = if optionalFieldOk data f then [] else [m] := by
  rw [optionalFieldOk]
  cases getField data f with
  | none => rfl
  | some v =>
      dsimp only
      cases jsTruthy v && !jsIsNumberType v <;> rfl

lemma ite_nil_eq_nil (b : Bool) (m : String) :
    ((if b then ([] : List String) else [m]) = []) ↔ b = true := by
  cases b <;> simp

/-- C1: stage discovery obeys skip-if-output-exists.  The labeling
stage's recursive search returns only files named `..._transcript.json`
whose sibling labeled artifact is absent from their directory; the
transcription stage never invokes the transcribe transform for a
metadata file whose `_transcript.json` sibling exists; and on a
completed two-episode layout, deleting exactly one stage's output
artifact makes exactly that stage re-execute for exactly that episode. -/
theorem stage_discovery_skip_semantics :
    (∀ (root : EntryList) (name : String) (d : EntryList),
        findTranscriptFile root = some (name, d) →
          strEndsWith name "_transcript.json" = true ∧ hasFileNamed d name = true ∧
          entryExists d (labeledFileName name) = false) ∧
    (∀ (d : PodcastDirState) (f : String), f ∈ (processPodcastDirectory d).2 →
        hasExistingTranscript d.files f = false) ∧
    ((findTranscriptFile treeComplete).map (fun r => r.1) = none ∧
     processPodcastDirectory ⟨true, filesComplete, attrsBoth⟩ = (false, []) ∧
     (findTranscriptFile treeNoLabeled1).map (fun r => (r.1, entryNames r.2))
        = some ("1_transcript.json", filesNoLabeled1) ∧
     processPodcastDirectory ⟨true, filesNoLabeled1, attrsBoth⟩ = (false, []) ∧
     (findTranscriptFile treeNoTranscript1).map (fun r => r.1) = none ∧
     processPodcastDirectory ⟨true, filesNoTranscript1, attrsBoth⟩ = (true, ["1.json"])) :=
  ⟨fun root name d h => findTranscriptList_sound root root (fun _ hn => hn) name d h,
   fun d f hf => processFiles_no_existing d.files d.attrs (metadataFilesOf d.files) f hf,
   by decide, by decide, by decide, by decide, by decide, by decide⟩

theorem stage_discovery_skip_semantics_witness :
    (strEndsWith "1_transcript.json" "_transcript.json" = true ∧
     hasFileNamed (filesOf filesNoLabeled1) "1_transcript.json" = true ∧
     entryExists (filesOf filesNoLabeled1) (labeledFileName "1_transcript.json") = false) ∧
    hasExistingTranscript filesNoTranscript1 "1.json" = false :=
  ⟨stage_discovery_skip_semantics.1 treeNoLabeled1 "1_transcript.json"
      (filesOf filesNoLabeled1) rfl,
   stage_discovery_skip_semantics.2.1 ⟨true, filesNoTranscript1, attrsBoth⟩ "1.json"
      (by decide)⟩

/-- C2: total speaker coverage.  For every transcript and every
labeling-model outcome — an error, an empty mapping, a mapping
omitting tokens, or one with empty-string labels — `identifySpeakers`
assigns a non-empty label to every speaker token occurring in the
transcript. -/
theorem speaker_coverage (transcript : List TranscriptSegment)
    (response : Except Unit (List (String × String))) (s : String)
    (h : s ∈ transcript.map (·.speaker)) :
    ∃ l, assocLookup s (identifySpeakers transcript response) = some l ∧ l ≠ "" := by
  have hu : s ∈ uniqueSpeakers transcript := List.mem_dedup.2 h
  cases response with
  | ok m => exact ensureAllSpeakers_covers (uniqueSpeakers transcript) m s hu
  | error e =>
      exact ⟨"Unknown Speaker", map_unknown_lookup _ s hu, by decide⟩

theorem speaker_coverage_witness :
    "Speaker 0" ∈ transcriptEx.map (fun seg => seg.speaker) ∧
    (∃ l, assocLookup "Speaker 0"
        (identifySpeakers transcriptEx (.ok [("Speaker 0", "")])) = some l ∧ l ≠ "") ∧
    (∃ l, assocLookup "Speaker 0"
        (identifySpeakers transcriptEx (.error ())) = some l ∧ l ≠ "") :=
  ⟨by decide,
   speaker_coverage transcriptEx (.ok [("Speaker 0", "")]) "Speaker 0" (by decide),
   speaker_coverage transcriptEx (.error ()) "Speaker 0" (by decide)⟩

/-- C3: timestamp validation boundary.  `validateTranscriptData` accepts
a timestamp string exactly when it is digits, a colon, and exactly two
digits whose value is below 60; in particular "12:60" is rejected
while "5:00" and "119:59" are accepted. -/
theorem timestamp_boundary :
    (∀ s : String,
        (validateTranscriptData (Json.arr [entryWithTimestamps s "5:00"])).isValid = true
          ↔ specTimestampAccepted s) ∧
    (validateTranscriptData (Json.arr [entryWithTimestamps "12:60" "5:00"])).isValid
        = false ∧
    (validateTranscriptData (Json.arr [entryWithTimestamps "5:00" "5:00"])).isValid
        = true ∧
    (validateTranscriptData (Json.arr [entryWithTimestamps "119:59" "5:00"])).isValid
        = true := by
  refine ⟨?_, by decide, by decide, by decide⟩
  intro s
  rw [validate_entryWith, ← timestampOk_iff]
  constructor
  · intro h
    rcases (Bool.and_eq_true _ _).mp h with ⟨h1, h2⟩
    exact ⟨h1, of_decide_eq_true h2⟩
  · rintro ⟨h1, h2⟩
    exact (Bool.and_eq_true _ _).mpr ⟨h1, decide_eq_true h2⟩

lemma jsRegexCoerce_eq_jsToString (v : Json) :
    jsRegexCoerce (some v) = jsToString v := by
  cases v with
  | null => rw [jsToString]; rfl
  | bool b => cases b <;> (rw [jsToString]; rfl)
  | num n => rw [jsToString]; rfl
  | str s => rw [jsToString]; rfl
  | arr xs => rfl
  | obj fs => rw [jsToString]; rfl

lemma jsToString_singleton_timestamp :
    jsRegexCoerce (some (Json.arr [Json.str "5:00"])) = "5:00" := by
  show jsToString (Json.arr [Json.str "5:00"]) = "5:00"
  rw [jsToString, jsToStringElems, jsToStringElems, jsToString]
  rfl

lemma entryThrows_throwingEntry : entryThrows throwingEntry = true := by
  have h : timestampFieldThrows throwingEntry "timestampFrom" = true := by
    rw [timestampFieldThrows]
    show (!jsIsStringType (Json.arr [Json.str "5:00"])
      && timestampRegexTest (jsRegexCoerce (some (Json.arr [Json.str "5:00"])))) = true
    rw [jsToString_singleton_timestamp]
    decide
  rw [entryThrows, h]
  decide

/-- C4 counterexample: the claim quantifies over every input array, but
on `throwingPair` — whose two entries are both malformed — the source
raises a `TypeError` at the first entry's `.split(":")` (its
`timestampFrom` is the array `["5:00"]`, which the format test coerces
to a matching string) and returns no error list at all, so no message
for the second malformed entry is ever produced. -/
theorem validateTranscript_throw_cex :
    entryWellFormed throwingEntry = false ∧
    entryWellFormed (Json.num 3) = false ∧
    validateTranscriptDataTotal (Json.arr throwingPair) = Except.error () := by
  refine ⟨by decide, by decide, ?_⟩
  rw [validateTranscriptDataTotal]
  rw [show throwingPair.any entryThrows = true by
    rw [throwingPair, List.any_cons, entryThrows_throwingEntry]
    rfl]
  rfl

/-- C4 (amended): on every input array on which validation completes —
no entry carries a non-string timestamp value whose string coercion
matches the pattern, the only way to reach the raising `.split` —
`validateTranscriptData` examines every element and each malformed
entry contributes at least one error message carrying that entry's
index; an array with such a throwing entry instead makes the validator
raise, returning no report. -/
theorem validation_completeness_when_returning (entries : List Json) (i : Nat)
    (hnt : entries.any entryThrows = false)
    (hi : i < entries.length) (hbad : entryWellFormed entries[i] = false) :
    ∃ res, validateTranscriptDataTotal (Json.arr entries) = Except.ok res ∧
      ∃ msg ∈ res.errors, ∃ rest, msg = "Entry " ++ toString i ++ rest := by
  refine ⟨validateTranscriptData (Json.arr entries), ?_, ?_⟩
  · rw [validateTranscriptDataTotal, hnt]
    rfl
  · have hne := entryErrors_ne_nil i entries[i] hbad
    obtain ⟨msg, hmem⟩ : ∃ msg, msg ∈ entryErrors i entries[i] := by
      cases hcase : entryErrors i entries[i] with
      | nil => exact absurd hcase hne
      | cons m rest => exact ⟨m, hcase ▸ List.mem_cons_self m rest⟩
    refine ⟨msg, ?_, entryErrors_prefix i entries[i] msg hmem⟩
    show msg ∈ transcriptErrorsFrom 0 entries
    exact transcriptErrorsFrom_mem entries 0 i hi msg (by simpa using hmem)

theorem validation_completeness_when_returning_witness :
    (malformedPair.any entryThrows = false ∧ 0 < malformedPair.length ∧
      entryWellFormed malformedPair[0] = false ∧
      ∃ res, validateTranscriptDataTotal (Json.arr malformedPair) = Except.ok res ∧
        ∃ msg ∈ res.errors, ∃ rest, msg = "Entry " ++ toString 0 ++ rest) ∧
    (1 < malformedPair.length ∧ entryWellFormed malformedPair[1] = false ∧
      ∃ res, validateTranscriptDataTotal (Json.arr malformedPair) = Except.ok res ∧
        ∃ msg ∈ res.errors, ∃ rest, msg = "Entry " ++ toString 1 ++ rest) :=
  ⟨⟨by decide, by decide, by decide,
    validation_completeness_when_returning malformedPair 0 (by decide) (by decide) (by decide)⟩,
   ⟨by decide, by decide,
    validation_completeness_when_returning malformedPair 1 (by decide) (by decide) (by decide)⟩⟩

/-- C5: persistence idempotence.  When an episode's external id is
already present, the persistence step leaves the store unchanged (no
episode row, no timestamp rows) and logs a skip; consequently running
the whole batch twice equals running it once. -/
theorem persistence_skip_idempotent (db : Db) (item : ValidatedItem)
    (items : List ValidatedItem)
    (h : episodeExists db (toString item.episode.id) = true) :
    insertOne db item = (db, ["Skipping episode " ++ item.episode.title
      ++ " (and its timestamps) - already exists in database"]) ∧
    insertData (insertData db items) items = insertData db items :=
  ⟨insertOne_skip db item h,
   insertData_noop _ items (fun it hm => episodeExists_insertData_mem db items it hm)⟩

theorem persistence_skip_idempotent_witness :
    episodeExists dbWithRow (toString itemFive.episode.id) = true ∧
    insertOne dbWithRow itemFive = (dbWithRow, ["Skipping episode " ++ itemFive.episode.title
      ++ " (and its timestamps) - already exists in database"]) ∧
    insertData (insertData dbWithRow [itemFive]) [itemFive]
      = insertData dbWithRow [itemFive] := by
  refine ⟨by decide, ?_⟩
  have h := persistence_skip_idempotent dbWithRow itemFive [itemFive] (by decide)
  exact h

/-- C6 counterexample: claim C6 says validation succeeds exactly when
`id` is an integer (plus title/optional conditions), but the integer
id 0 with a valid title is rejected by the code (`!data.id` treats 0
as missing). -/
theorem validateEpisode_cex :
    claimEpisodeValid episodeZeroId = true ∧
    (validateEpisodeData episodeZeroId).isValid = false := by decide

/-- C6 (amended): `validateEpisodeData` succeeds exactly when the input
is a truthy object, `id` is present, truthy and numeric, `title` is a
non-empty string, and no optional field is simultaneously truthy and
non-numeric; every violated check contributes its own message to the
accumulated error list. -/
theorem validateEpisodeData_characterization (data : Json) :
    ((validateEpisodeData data).isValid = true ↔
      ((jsTruthy data && jsIsObjectType data) = true ∧
       truthyNumberField data "id" = true ∧ truthyStringField data "title" = true ∧
       optionalFieldOk data "datePublished" = true ∧
       optionalFieldOk data "dateCrawled" = true ∧
       optionalFieldOk data "duration" = true ∧
       optionalFieldOk data "episode" = true)) ∧
    ((jsTruthy data && jsIsObjectType data) = true →
      (truthyNumberField data "id" = false →
        "Missing or invalid id (must be a number)" ∈ (validateEpisodeData data).errors) ∧
      (truthyStringField data "title" = false →
        "Missing or invalid title (must be a string)" ∈ (validateEpisodeData data).errors) ∧
      (optionalFieldOk data "datePublished" = false →
        "Invalid datePublished (must be a number)" ∈ (validateEpisodeData data).errors) ∧
      (optionalFieldOk data "dateCrawled" = false →
        "Invalid dateCrawled (must be a number)" ∈ (validateEpisodeData data).errors) ∧
      (optionalFieldOk data "duration" = false →
        "Invalid duration (must be a number)" ∈ (validateEpisodeData data).errors) ∧
      (optionalFieldOk data "episode" = false →
        "Invalid episode (must be a number)" ∈ (validateEpisodeData data).errors)) := by
  by_cases hobj : (jsTruthy data && jsIsObjectType data) = true
  · have hite : (!(jsTruthy data && jsIsObjectType data)) = false := by rw [hobj]; rfl
    have herr : (validateEpisodeData data).errors
        = (if truthyNumberField data "id" then [] else ["Missing or invalid id (must be a number)"])
          ++ (if truthyStringField data "title" then [] else ["Missing or invalid title (must be a string)"])
          ++ (if optionalFieldOk data "datePublished" then [] else ["Invalid datePublished (must be a number)"])
          ++ (if optionalFieldOk data "dateCrawled" then [] else ["Invalid dateCrawled (must be a number)"])
          ++ (if optionalFieldOk data "duration" then [] else ["Invalid duration (must be a number)"])
          ++ (if optionalFieldOk data "episode" then [] else ["Invalid episode (must be a number)"]) := by
      rw [validateEpisodeData, hite]
      dsimp only
      rw [requiredNumErr_eq, requiredStrErr_eq, optionalErr_eq, optionalErr_eq,
        optionalErr_eq, optionalErr_eq]
      rfl
    have hvalid : (validateEpisodeData data).isValid
        = (validateEpisodeData data).errors.isEmpty := by
      rw [validateEpisodeData, hite]
      rfl
    constructor
    · rw [hvalid, herr]
      rw [List.isEmpty_iff]
      simp only [List.append_eq_nil, ite_nil_eq_nil]
      constructor
      · rintro ⟨⟨⟨⟨⟨h1, h2⟩, h3⟩, h4⟩, h5⟩, h6⟩
        exact ⟨hobj, h1, h2, h3, h4, h5, h6⟩
      · rintro ⟨_, h1, h2, h3, h4, h5, h6⟩
        exact ⟨⟨⟨⟨⟨h1, h2⟩, h3⟩, h4⟩, h5⟩, h6⟩
    · intro _
      rw [herr]
      refine ⟨?_, ?_, ?_, ?_, ?_, ?_⟩ <;> intro hb <;> rw [hb] <;> simp
  · have hite : (!(jsTruthy data && jsIsObjectType data)) = true := by
      revert hobj
      cases jsTruthy data && jsIsObjectType data <;> simp
    have hvalid : (validateEpisodeData data).isValid = false := by
      rw [validateEpisodeData, hite]
      rfl
    constructor
    · rw [hvalid]
      constructor
      · intro h
        cases h
      · rintro ⟨h, _⟩
        exact absurd h hobj
    · intro h
      exact absurd h hobj

theorem validateEpisodeData_characterization_witness :
    ((jsTruthy episodeBadFields && jsIsObjectType episodeBadFields) = true ∧
     truthyNumberField episodeBadFields "id" = false ∧
     optionalFieldOk episodeBadFields "duration" = false) ∧
    "Missing or invalid id (must be a number)" ∈ (validateEpisodeData episodeBadFields).errors ∧
    "Invalid duration (must be a number)" ∈ (validateEpisodeData episodeBadFields).errors :=
  ⟨⟨by decide, by decide, by decide⟩,
   ((validateEpisodeData_characterization episodeBadFields).2 (by decide)).1 (by decide),
   (((validateEpisodeData_characterization episodeBadFields).2 (by decide)).2.2.2.2.1) (by decide)⟩

/-- C7: budget semantics.  The orchestrator takes one optional positional
integer argument defaulting to 1, and its loop completes exactly
`min budget yieldingDirectories` units: a directory yielding no
successful work never counts toward the budget and the loop advances
past it, stopping once the budget is reached or the directories are
exhausted. -/
theorem budget_semantics :
    (∀ (arg : Option String) (dirs : List PodcastDirState),
        mainLoop (parseBudget arg) dirs 0
          = min (parseBudget arg).toNat (dirs.countP dirYields)) ∧
    parseBudget none = 1 := by
  constructor
  · intro arg dirs
    rw [mainLoop_closed]
    by_cases h : (0 : Int) < parseBudget arg
    · rw [if_pos (by exact_mod_cast h)]
      simp
    · rw [if_neg (by exact_mod_cast h)]
      have : (parseBudget arg).toNat = 0 := by omega
      simp [this]
  · rfl

/-- C8 counterexample: claim C8 says runs of non-alphanumeric characters
collapse to a single underscore, but the source's
`replace(/[^a-z0-9]/gi, "_")` maps the two dashes of "a--b" to two
underscores. -/
theorem sanitize_cex :
    sanitizeFeedTitle "a--b" = "a__b" ∧ collapseRunsName "a--b" = "a_b" ∧
    sanitizeFeedTitle "a--b" ≠ collapseRunsName "a--b" := by decide

/-- C8 (amended): the podcast directory name replaces each individual
non-alphanumeric character of the feed title with one underscore (runs
are not collapsed) and lowercases the rest, preserving length. -/
theorem sanitizeFeedTitle_chars (s : String) :
    (sanitizeFeedTitle s).data
        = s.data.map (fun c => if c.isAlphanum then c.toLower else '_') ∧
    (sanitizeFeedTitle s).length = s.length := by
  have h : (sanitizeFeedTitle s).data
      = s.data.map (fun c => if c.isAlphanum then c.toLower else '_') := by
    simp only [sanitizeFeedTitle, jsToLowerCase, jsReplaceNonAlnum, List.map_map]
    apply List.map_congr_left
    intro c _
    by_cases hc : c.isAlphanum <;> simp [hc, Function.comp]
  refine ⟨h, ?_⟩
  have : (sanitizeFeedTitle s).length = (sanitizeFeedTitle s).data.length := rfl
  rw [this, h, List.length_map]
  rfl

/-- C9 counterexample: claim C9 says a malformed artifact is reported
distinctly from a missing one, but both readers return the same
sentinel for a filesystem where the file is absent and one where it
exists but fails to parse. -/
theorem artifact_read_cex :
    fsAllMissing (joinPath "data/pod" "1_transcript.json") = none ∧
    fsAllMalformed (joinPath "data/pod" "1_transcript.json") = some .malformed ∧
    loadTranscript fsAllMissing "data/pod" "1_transcript.json"
      = loadTranscript fsAllMalformed "data/pod" "1_transcript.json" ∧
    loadEpisodeMetadata fsAllMissing "data/pod" "1.json"
      = loadEpisodeMetadata fsAllMalformed "data/pod" "1.json" :=
  ⟨rfl, rfl, rfl, rfl⟩

/-- C9 (amended): the artifact readers map a missing file and an
existing-but-unparseable file to the same sentinel result (`none` for
metadata, `[]` for transcripts); no distinct `CorruptArtifact` outcome
exists. -/
theorem artifact_read_merged (fs : String → Option FileContent) (directory file : String)
    (h : fs (joinPath directory file) = none ∨
         fs (joinPath directory file) = some .malformed) :
    loadEpisodeMetadata fs directory file = none ∧
    loadTranscript fs directory file = Json.arr [] := by
  cases h with
  | inl h => exact ⟨by simp [loadEpisodeMetadata, h], by simp [loadTranscript, h]⟩
  | inr h => exact ⟨by simp [loadEpisodeMetadata, h], by simp [loadTranscript, h]⟩

theorem artifact_read_merged_witness :
    loadEpisodeMetadata fsAllMissing "data/pod" "1.json" = none ∧
    loadTranscript fsAllMissing "data/pod" "1_transcript.json" = Json.arr [] :=
  ⟨(artifact_read_merged fsAllMissing "data/pod" "1.json" (Or.inl rfl)).1,
   (artifact_read_merged fsAllMissing "data/pod" "1_transcript.json" (Or.inl rfl)).2⟩

/-- C10: labeling preserves the transcript frame.  The labeled transcript
has the same length and order as the input, and each output segment
agrees with its input segment on speaker, both timestamps and content;
only `labeledSpeaker` is added. -/
theorem labelTranscript_frame (speakerMapping : List (String × String))
    (transcript : List TranscriptSegment) :
    (labelTranscript speakerMapping transcript).length = transcript.length ∧
    ∀ i : Nat, ((labelTranscript speakerMapping transcript)[i]?).map unlabelSegment
        = transcript[i]? := by
  constructor
  · simp [labelTranscript]
  · intro i
    simp only [labelTranscript, List.getElem?_map, Option.map_map]
    cases transcript[i]? with
    | none => rfl
    | some seg => rfl
